import Mathlib

/-!
Shallow embedding of src/variant.hpp (mapbox::util::variant, a closed
tagged-union container) and proofs about its claims.

Modelling conventions:
* C++ types in the alternative list are represented by abstract codes
  (`Code`, with decidable equality mirroring std::is_same); the value held
  by a code c has Lean type `Den c`.
* `std::size_t` is `Nat`; `detail::invalid_value = std::size_t(-1)` is the
  literal `2 ^ 64 - 1`.
* Functions that can throw return `VRes`: `ok` is a normal return, `err m`
  is a thrown C++ exception whose what() message is m (get throws
  bad_variant_access with message "in get<T>()"), and `ub` marks an
  ill-typed storage read (undefined behavior in C++); the proofs show `ub`
  is not reached on the states the claims range over.
* Only the plain-type overloads of get are modelled; the
  recursive_wrapper / reference_wrapper overloads and the unwrapper
  specializations for them are not needed by any claim, so `unwrapper`
  is the identity here.
* Compile-time gates (static_assert / enable_if) are modelled as explicit
  propositions (`has_type`, `direct_type T gamma = invalid_value` tests) and
  appear as hypotheses of the theorems that depend on them.
-/

namespace MapboxUtil

/-- detail::invalid_value = std::size_t(-1) on a 64-bit platform. -/
def invalid_value : Nat := 2 ^ 64 - 1

/-- detail::direct_type<T, Types...>::index — exact-match scan; the first
match at head position of a remaining list rest yields rest.length
(so the FIRST declared alternative has the LARGEST index). -/
def direct_type {Code : Type} [DecidableEq Code] (T : Code) : List Code → Nat
  | [] => invalid_value
  | F :: rest => if T = F then rest.length else direct_type T rest

/-- detail::convertible_type<T, Types...>::index — same scan keyed on the
convertibility relation conv (modelling std::is_convertible). -/
def convertible_type {Code : Type} (conv : Code → Code → Bool) (T : Code) : List Code → Nat
  | [] => invalid_value
  | F :: rest => if conv T F then rest.length else convertible_type conv T rest

/-- detail::value_traits<T, Types...>::index — direct match if found, else
the convertible fallback. -/
def value_traits_index {Code : Type} [DecidableEq Code]
    (conv : Code → Code → Bool) (T : Code) (gamma : List Code) : Nat :=
  if direct_type T gamma = invalid_value then convertible_type conv T gamma
  else direct_type T gamma

/-- detail::has_type<T, Types...>::value — T occurs in the list
(the static_assert gate of is<T>()). -/
def has_type {Code : Type} [DecidableEq Code] (T : Code) : List Code → Bool
  | [] => false
  | F :: rest => (decide (T = F)) || has_type T rest

/-- detail::is_valid_type<T, Types...>::value — T converts to some
alternative (the enable_if gate of the converting constructor). -/
def is_valid_type {Code : Type} (conv : Code → Code → Bool) (T : Code) : List Code → Bool
  | [] => false
  | F :: rest => conv T F || is_valid_type conv T rest

/-- Content of the aligned byte storage: either uninitialized / destroyed
(no live object), or exactly one live value of the alternative coded c. -/
inductive StoreVal (Code : Type) (Den : Code → Type) : Type where
  | none : StoreVal Code Den
  | some (c : Code) (v : Den c) : StoreVal Code Den

/-- Result of an operation that can throw: ok, a thrown exception carrying
its what() message, or an ill-typed storage read (C++ undefined behavior). -/
inductive VRes (R : Type) : Type where
  | ok (r : R) : VRes R
  | err (msg : String) : VRes R
  | ub : VRes R

/-- Sequencing in the exception model: exceptions and UB propagate. -/
def VRes.bind {A B : Type} : VRes A → (A → VRes B) → VRes B
  | .ok a, f => f a
  | .err m, _ => .err m
  | .ub, _ => .ub

/-- mapbox::util::variant<Types...>: an integer tag plus storage.
gamma is the declared alternative list, Den the value type of each code. -/
structure variant {Code : Type} (gamma : List Code) (Den : Code → Type) : Type where
  type_index : Nat
  data : StoreVal Code Den

section Ops

variable {Code : Type} [DecidableEq Code] {Den : Code → Type} {gamma : List Code}

/-- variant::get_type_index() — the raw tag accessor. -/
def variant.get_type_index (v : variant gamma Den) : Nat :=
  v.type_index

/-- variant::valid() — type_index != detail::invalid_value. -/
def variant.valid (v : variant gamma Den) : Bool :=
  decide (v.type_index ≠ invalid_value)

/-- variant::is<T>() — type_index == detail::direct_type<T, Types...>::index.
The static_assert gate (has_type) is stated as a hypothesis where used. -/
def variant.is (v : variant gamma Den) (T : Code) : Bool :=
  decide (v.type_index = direct_type T gamma)

/-- variant::get<T>() (plain-type overload, const and non-const agree):
if the tag equals the direct index of T, reinterpret the storage as T
(UB unless the live value really is a T); otherwise throw
bad_variant_access("in get<T>()"). -/
def variant.get (v : variant gamma Den) (T : Code) : VRes (Den T) :=
  if v.type_index = direct_type T gamma then
    match v.data with
    | .some c x => if h : c = T then .ok (h ▸ x) else .ub
    | .none => .ub
  else .err "in get<T>()"

/-- variant::variant() — default construction: tag = sizeof...(Types) - 1,
placement-default-constructs the first declared type. The argument d is
the default value of the first type (the static_assert that the first
type is default constructible is modelled by having to supply d). -/
def variant_default (T : Code) (rest : List Code) (d : Den T) :
    variant (T :: rest) Den :=
  { type_index := (T :: rest).length - 1, data := .some T d }

/-- variant::variant(no_init) — tag = invalid_value, storage uninitialized. -/
def variant_no_init : variant gamma Den :=
  { type_index := invalid_value, data := .none }

/-- variant::variant(T&&) — converting construction: tag =
value_traits<T, Types...>::index, storage constructed from the argument.
The stored code is T itself, which is faithful exactly on the direct-match
path (the only path the claims exercise); the enable_if gate is_valid_type
is stated as a hypothesis where used. -/
def variant_ctor (conv : Code → Code → Bool) (T : Code) (x : Den T) :
    variant gamma Den :=
  { type_index := value_traits_index conv T gamma, data := .some T x }

/-- A variant state holding the alternative at declared position i:
tag gamma.length - 1 - i, storage a live value of code gamma[i]. Used to state
theorems; constructors are proved to produce such states. -/
def mk_at (gamma : List Code) (Den : Code → Type) (i : Nat) (hi : i < gamma.length)
    (x : Den gamma[i]) : variant gamma Den :=
  { type_index := gamma.length - 1 - i, data := .some gamma[i] x }

/-- detail::variant_helper<Types...>::destroy(id, data) — scans the list,
invoking the destructor of the alternative whose position matches id.
Modelled as the list of codes whose destructor runs (empty when id matches
no position, in particular on the INVALID tag). -/
def helper_destroy_calls (id : Nat) : List Code → List Code
  | [] => []
  | T :: rest => if id = rest.length then [T] else helper_destroy_calls id rest

/-- variant::~variant() — helper destroy keyed by the tag; result is the
list of destructor invocations it performs. -/
def variant_dtor (v : variant gamma Den) : List Code :=
  helper_destroy_calls v.type_index gamma

/-- detail::variant_helper<Types...>::copy(old_id, old_value, new_value) —
at the matching position, reads the source storage as T (UB if the live
value is not a T) and placement-copy-constructs it into the destination;
copyCtor models the per-alternative copy constructor (Option.none = it
threw). Returns the destination storage content. -/
def helper_copy (copyCtor : (c : Code) → Den c → Option (Den c))
    (old_id : Nat) (src : StoreVal Code Den) : List Code → VRes (StoreVal Code Den)
  | [] => .ok .none
  | T :: rest =>
    if old_id = rest.length then
      match src with
      | .some c x =>
        if h : c = T then
          match copyCtor T (h ▸ x) with
          | some y => .ok (.some T y)
          | none => .err "alternative copy constructor threw"
        else .ub
      | .none => .ub
    else helper_copy copyCtor old_id src rest

/-- detail::variant_helper<Types...>::move(old_id, old_value, new_value) —
at the matching position, placement-move-constructs T from the source.
moveCtor models the per-alternative move constructor: on success it yields
(value the destination receives, residue left in the source); none = it
threw. Returns (destination content, source content afterwards). -/
def helper_move (moveCtor : (c : Code) → Den c → Option (Den c × Den c))
    (old_id : Nat) (src : StoreVal Code Den) :
    List Code → VRes (StoreVal Code Den × StoreVal Code Den)
  | [] => .ok (.none, src)
  | T :: rest =>
    if old_id = rest.length then
      match src with
      | .some c x =>
        if h : c = T then
          match moveCtor T (h ▸ x) with
          | some (y, r) => .ok (.some T y, .some T r)
          | none => .err "alternative move constructor threw"
        else .ub
      | .none => .ub
    else helper_move moveCtor old_id src rest

/-- Outcome of an assignment: the new state, or the state the object is
left in when an exception escapes, or UB. -/
inductive assign_result {Code : Type} (gamma : List Code) (Den : Code → Type) : Type where
  | ok (v : variant gamma Den) : assign_result gamma Den
  | thrown (escape : variant gamma Den) : assign_result gamma Den
  | ub : assign_result gamma Den

/-- variant::copy_assign(rhs) — (1) helper destroy of the current value,
(2) type_index := invalid_value, (3) helper copy of the active alternative
of rhs, (4) type_index := rhs.type_index. Returns the outcome paired with
the destructor invocations step (1) performed. -/
def copy_assign (copyCtor : (c : Code) → Den c → Option (Den c))
    (v rhs : variant gamma Den) : assign_result gamma Den × List Code :=
  let dtors := helper_destroy_calls v.type_index gamma
  let emptied : variant gamma Den := { type_index := invalid_value, data := .none }
  match helper_copy copyCtor rhs.type_index rhs.data gamma with
  | .ok d => (.ok { type_index := rhs.type_index, data := d }, dtors)
  | .err _ => (.thrown emptied, dtors)
  | .ub => (.ub, dtors)

/-- variant::move_assign(rhs) — same sequence with helper move. -/
def move_assign (moveCtor : (c : Code) → Den c → Option (Den c × Den c))
    (v rhs : variant gamma Den) : assign_result gamma Den × List Code :=
  let dtors := helper_destroy_calls v.type_index gamma
  let emptied : variant gamma Den := { type_index := invalid_value, data := .none }
  match helper_move moveCtor rhs.type_index rhs.data gamma with
  | .ok (d, _) => (.ok { type_index := rhs.type_index, data := d }, dtors)
  | .err _ => (.thrown emptied, dtors)
  | .ub => (.ub, dtors)

/-- variant::variant(variant&&) — tag copied from the source, payload
moved via helper move; the tag of the source is NOT modified. Returns
(new variant, moved-from source). -/
def variant_move_ctor (moveCtor : (c : Code) → Den c → Option (Den c × Den c))
    (old : variant gamma Den) : VRes (variant gamma Den × variant gamma Den) :=
  match helper_move moveCtor old.type_index old.data gamma with
  | .ok (d, s) =>
    .ok ({ type_index := old.type_index, data := d },
         { type_index := old.type_index, data := s })
  | .err m => .err m
  | .ub => .ub

/-- variant::set<T>(args...) — destroy current, tag := invalid_value,
placement-construct T from the arguments (modelled by the value x), then
tag := direct_type<T, Types...>::index. Note: the source has NO build-time
check that T is a declared alternative. Returns the new state paired with
the destructor invocations of the first step. -/
def variant.set (v : variant gamma Den) (T : Code) (x : Den T) :
    variant gamma Den × List Code :=
  ({ type_index := direct_type T gamma, data := .some T x },
   helper_destroy_calls v.type_index gamma)

/-- detail::dispatcher<F, V, R, T, Types...>::apply_const(v, f) — scans the
list; the base specialization (one remaining type) applies the visitor
unconditionally, the cons specialization applies it when the tag equals
the remaining count and recurses otherwise. The C++ call
f(unwrapper<T>::apply_const(v.get<T>())) evaluates get first, so a thrown
bad_variant_access propagates before the visitor runs. -/
def dispatch {R : Type} (v : variant gamma Den) (f : (c : Code) → Den c → VRes R) :
    List Code → VRes R
  | [] => .ub
  | T :: rest =>
    if rest = [] ∨ v.type_index = rest.length then (v.get T).bind (f T)
    else dispatch v f rest

/-- variant::visit(v, f) — unary dispatch over the full alternative list. -/
def visit {R : Type} (v : variant gamma Den) (f : (c : Code) → Den c → VRes R) : VRes R :=
  dispatch v f gamma

/-- detail::comparer<Variant, Comp> — a visitor that fetches the value of
the left operand at the visited type via get (which can throw) and applies
the comparison to the two payloads. -/
def comparer (comp : (c : Code) → Den c → Den c → Bool)
    (lhs : variant gamma Den) : (c : Code) → Den c → VRes Bool :=
  fun T rhs_content => (lhs.get T).bind fun lhs_content => .ok (comp T lhs_content rhs_content)

/-- variant::operator== — false if the tags differ, otherwise visit the
right operand with the equality comparer (detail::equal_comp is the
per-alternative equality eqDen). -/
def variant_eq (eqDen : (c : Code) → Den c → Den c → Bool)
    (v rhs : variant gamma Den) : VRes Bool :=
  if v.get_type_index ≠ rhs.get_type_index then .ok false
  else visit rhs (comparer eqDen v)

/-- variant::operator< — if the tags differ, compare the raw tags;
otherwise visit the right operand with the less-than comparer
(detail::less_comp is the per-alternative ordering ltDen). -/
def variant_lt (ltDen : (c : Code) → Den c → Den c → Bool)
    (v rhs : variant gamma Den) : VRes Bool :=
  if v.get_type_index ≠ rhs.get_type_index then
    .ok (decide (v.get_type_index < rhs.get_type_index))
  else visit rhs (comparer ltDen v)

/-- detail::binary_dispatcher_rhs<F, V, R, T0, T1, Types...> — the left
operand is fixed at T0; scan the remaining list for the tag of the right
operand (base specialization with two types applies unconditionally). -/
def binary_dispatcher_rhs {R : Type} (v0 v1 : variant gamma Den)
    (f : (c d : Code) → Den c → Den d → VRes R) (T0 : Code) :
    List Code → VRes R
  | [] => .ub
  | T1 :: rest =>
    if rest = [] ∨ v1.type_index = rest.length then
      (v0.get T0).bind fun a => (v1.get T1).bind fun b => f T0 T1 a b
    else binary_dispatcher_rhs v0 v1 f T0 rest

/-- detail::binary_dispatcher_lhs<F, V, R, T0, T1, Types...> — the right
operand is fixed at T0; scan the remaining list for the tag of the left
operand. -/
def binary_dispatcher_lhs {R : Type} (v0 v1 : variant gamma Den)
    (f : (c d : Code) → Den c → Den d → VRes R) (T0 : Code) :
    List Code → VRes R
  | [] => .ub
  | T1 :: rest =>
    if rest = [] ∨ v0.type_index = rest.length then
      (v0.get T1).bind fun a => (v1.get T0).bind fun b => f T1 T0 a b
    else binary_dispatcher_lhs v0 v1 f T0 rest

/-- detail::binary_dispatcher<F, V, R, T, Types...> — scan for the first
operand whose tag matches the current position: on a match of v0, apply
directly when the tags agree, else fix T for v0 and scan v1 (rhs helper);
on a match of v1, fix T for v1 and scan v0 (lhs helper); the base
specialization applies the visitor at the last type unconditionally. -/
def binary_dispatcher {R : Type} (v0 v1 : variant gamma Den)
    (f : (c d : Code) → Den c → Den d → VRes R) :
    List Code → VRes R
  | [] => .ub
  | T :: rest =>
    if rest = [] then
      (v0.get T).bind fun a => (v1.get T).bind fun b => f T T a b
    else if v0.type_index = rest.length then
      if v0.type_index = v1.type_index then
        (v0.get T).bind fun a => (v1.get T).bind fun b => f T T a b
      else binary_dispatcher_rhs v0 v1 f T rest
    else if v1.type_index = rest.length then
      binary_dispatcher_lhs v0 v1 f T rest
    else binary_dispatcher v0 v1 f rest

/-- variant::binary_visit(v0, v1, f) — binary dispatch over the full list. -/
def binary_visit {R : Type} (v0 v1 : variant gamma Den)
    (f : (c d : Code) → Den c → Den d → VRes R) : VRes R :=
  binary_dispatcher v0 v1 f gamma

end Ops

/-! Concrete instantiation used by witnesses and counterexamples: type
codes are naturals and every alternative's value type is Nat (e.g. for
the list [0, 1], code 0 plays the Int alternative and code 1 the String
alternative of the Variant<Int, String> example of the specification). -/

/-- Value type of each code in the concrete instantiation. -/
@[reducible] def DenNat : Nat → Type := fun _ => Nat

/-- Per-alternative equality (detail::equal_comp instantiation). -/
def eqNat : (c : Nat) → DenNat c → DenNat c → Bool := fun _ a b => a == b

/-- Per-alternative ordering (detail::less_comp instantiation). -/
def ltNat : (c : Nat) → DenNat c → DenNat c → Bool := fun _ a b => decide (a < b)

/-- Convertibility: exact matches only (std::is_convertible restricted to
the identity, enough for the direct-match paths the claims exercise). -/
def convEq : Nat → Nat → Bool := fun a b => a == b

/-- A copy constructor that succeeds, copying the value. -/
def copyOk : (c : Nat) → DenNat c → Option (DenNat c) := fun _ a => some a

/-- A copy constructor that throws on every input. -/
def copyBad : (c : Nat) → DenNat c → Option (DenNat c) := fun _ _ => none

/-- A move constructor that succeeds: the destination receives the value,
the source payload is left in the moved-from state 0. -/
def moveOk : (c : Nat) → DenNat c → Option (DenNat c × DenNat c) := fun _ a => some (a, 0)

/-- A move constructor that throws on every input. -/
def moveBad : (c : Nat) → DenNat c → Option (DenNat c × DenNat c) := fun _ _ => none

section Proofs

variable {Code : Type} [DecidableEq Code] {Den : Code → Type} {gamma : List Code}

/-! Structural lemmas about the index machinery and the scans. -/

lemma direct_type_getElem (hnd : gamma.Nodup) (i : Nat) (hi : i < gamma.length) :
    direct_type gamma[i] gamma = gamma.length - 1 - i := by
  induction gamma generalizing i with
  | nil => simp at hi
  | cons F rest ih =>
    obtain ⟨hF, hrest⟩ := List.nodup_cons.mp hnd
    cases i with
    | zero => simp [direct_type]
    | succ n =>
      have hn : n < rest.length := by simpa using hi
      have hne : (F :: rest)[n + 1] ≠ F := by
        simp only [List.getElem_cons_succ]
        intro h
        exact hF (h ▸ List.getElem_mem hn)
      simp only [direct_type, List.getElem_cons_succ, List.length_cons] at *
      rw [if_neg (by simpa using hne)]
      have := ih hrest n hn
      rw [this]
      omega

lemma direct_type_not_mem (T : Code) (hT : T ∉ gamma) :
    direct_type T gamma = invalid_value := by
  induction gamma with
  | nil => rfl
  | cons F rest ih =>
    simp only [List.mem_cons, not_or] at hT
    simp only [direct_type, if_neg hT.1]
    exact ih hT.2

lemma has_type_not_mem (T : Code) (hT : T ∉ gamma) :
    has_type T gamma = false := by
  induction gamma with
  | nil => rfl
  | cons F rest ih =>
    simp only [List.mem_cons, not_or] at hT
    simp only [has_type, ih hT.2, Bool.or_false, decide_eq_false_iff_not]
    exact hT.1

lemma value_traits_index_of_direct (conv : Code → Code → Bool) (T : Code)
    (h : direct_type T gamma ≠ invalid_value) :
    value_traits_index conv T gamma = direct_type T gamma := by
  simp [value_traits_index, h]

lemma tag_lt_invalid {n N : Nat} (hN : N ≤ invalid_value) (hn : n < N) :
    N - 1 - n < invalid_value := by
  omega

/-- The converting constructor applied to the alternative declared at
position i produces exactly the canonical state mk_at. -/
lemma variant_ctor_eq_mk_at (conv : Code → Code → Bool)
    (hnd : gamma.Nodup) (hN : gamma.length ≤ invalid_value)
    (i : Nat) (hi : i < gamma.length) (x : Den gamma[i]) :
    (variant_ctor conv gamma[i] x : variant gamma Den) = mk_at gamma Den i hi x := by
  unfold variant_ctor mk_at
  have hd := direct_type_getElem hnd i hi
  have hne : direct_type gamma[i] gamma ≠ invalid_value := by
    rw [hd]; exact Nat.ne_of_lt (tag_lt_invalid hN hi)
  rw [value_traits_index_of_direct conv _ hne, hd]

lemma get_mk_at (hnd : gamma.Nodup) (i : Nat) (hi : i < gamma.length)
    (x : Den gamma[i]) :
    (mk_at gamma Den i hi x).get gamma[i] = VRes.ok x := by
  have hd := direct_type_getElem hnd i hi
  simp [mk_at, variant.get, hd]

lemma get_mk_at_ne (hnd : gamma.Nodup) (i j : Nat)
    (hi : i < gamma.length) (hj : j < gamma.length) (hij : i ≠ j)
    (x : Den gamma[i]) :
    (mk_at gamma Den i hi x).get gamma[j] = VRes.err "in get<T>()" := by
  have hd := direct_type_getElem hnd j hj
  have hne : gamma.length - 1 - i ≠ gamma.length - 1 - j := by omega
  simp [mk_at, variant.get, hd, hne]

lemma helper_destroy_calls_at (i : Nat) (hi : i < gamma.length) :
    helper_destroy_calls (gamma.length - 1 - i) gamma = [gamma[i]] := by
  induction gamma generalizing i with
  | nil => simp at hi
  | cons T rest ih =>
    cases i with
    | zero => simp [helper_destroy_calls]
    | succ n =>
      have hn : n < rest.length := by simpa using hi
      simp only [helper_destroy_calls, List.length_cons, List.getElem_cons_succ]
      rw [if_neg (by omega)]
      have : rest.length + 1 - 1 - (n + 1) = rest.length - 1 - n := by omega
      rw [this]
      exact ih n hn

lemma helper_destroy_calls_ge (id : Nat) (hid : gamma.length ≤ id) :
    helper_destroy_calls id gamma = [] := by
  induction gamma with
  | nil => rfl
  | cons T rest ih =>
    simp only [List.length_cons] at hid
    simp only [helper_destroy_calls]
    rw [if_neg (by omega)]
    exact ih (by omega)

lemma helper_copy_at_some (copyCtor : (c : Code) → Den c → Option (Den c))
    (i : Nat) (hi : i < gamma.length) (x y : Den gamma[i])
    (hy : copyCtor gamma[i] x = some y) :
    helper_copy copyCtor (gamma.length - 1 - i) (.some gamma[i] x) gamma =
      .ok (.some gamma[i] y) := by
  induction gamma generalizing i with
  | nil => simp at hi
  | cons T rest ih =>
    cases i with
    | zero =>
      simp only [List.getElem_cons_zero] at hy
      simp only [helper_copy, List.length_cons, List.getElem_cons_zero]
      rw [if_pos (by omega)]
      simp [hy]
    | succ n =>
      have hn : n < rest.length := by simpa using hi
      simp only [List.getElem_cons_succ] at hy ⊢
      simp only [helper_copy, List.length_cons]
      rw [if_neg (by omega)]
      have heq : rest.length + 1 - 1 - (n + 1) = rest.length - 1 - n := by omega
      rw [heq]
      exact ih n hn x y hy

lemma helper_copy_at_none (copyCtor : (c : Code) → Den c → Option (Den c))
    (i : Nat) (hi : i < gamma.length) (x : Den gamma[i])
    (hy : copyCtor gamma[i] x = none) :
    helper_copy copyCtor (gamma.length - 1 - i) (.some gamma[i] x) gamma =
      .err "alternative copy constructor threw" := by
  induction gamma generalizing i with
  | nil => simp at hi
  | cons T rest ih =>
    cases i with
    | zero =>
      simp only [List.getElem_cons_zero] at hy
      simp only [helper_copy, List.length_cons, List.getElem_cons_zero]
      rw [if_pos (by omega)]
      simp [hy]
    | succ n =>
      have hn : n < rest.length := by simpa using hi
      simp only [List.getElem_cons_succ] at hy ⊢
      simp only [helper_copy, List.length_cons]
      rw [if_neg (by omega)]
      have heq : rest.length + 1 - 1 - (n + 1) = rest.length - 1 - n := by omega
      rw [heq]
      exact ih n hn x hy

lemma helper_move_at_some (moveCtor : (c : Code) → Den c → Option (Den c × Den c))
    (i : Nat) (hi : i < gamma.length) (x y r : Den gamma[i])
    (hy : moveCtor gamma[i] x = some (y, r)) :
    helper_move moveCtor (gamma.length - 1 - i) (.some gamma[i] x) gamma =
      .ok (.some gamma[i] y, .some gamma[i] r) := by
  induction gamma generalizing i with
  | nil => simp at hi
  | cons T rest ih =>
    cases i with
    | zero =>
      simp only [List.getElem_cons_zero] at hy
      simp only [helper_move, List.length_cons, List.getElem_cons_zero]
      rw [if_pos (by omega)]
      simp [hy]
    | succ n =>
      have hn : n < rest.length := by simpa using hi
      simp only [List.getElem_cons_succ] at hy ⊢
      simp only [helper_move, List.length_cons]
      rw [if_neg (by omega)]
      have heq : rest.length + 1 - 1 - (n + 1) = rest.length - 1 - n := by omega
      rw [heq]
      exact ih n hn x y r hy

lemma helper_move_at_none (moveCtor : (c : Code) → Den c → Option (Den c × Den c))
    (i : Nat) (hi : i < gamma.length) (x : Den gamma[i])
    (hy : moveCtor gamma[i] x = none) :
    helper_move moveCtor (gamma.length - 1 - i) (.some gamma[i] x) gamma =
      .err "alternative move constructor threw" := by
  induction gamma generalizing i with
  | nil => simp at hi
  | cons T rest ih =>
    cases i with
    | zero =>
      simp only [List.getElem_cons_zero] at hy
      simp only [helper_move, List.length_cons, List.getElem_cons_zero]
      rw [if_pos (by omega)]
      simp [hy]
    | succ n =>
      have hn : n < rest.length := by simpa using hi
      simp only [List.getElem_cons_succ] at hy ⊢
      simp only [helper_move, List.length_cons]
      rw [if_neg (by omega)]
      have heq : rest.length + 1 - 1 - (n + 1) = rest.length - 1 - n := by omega
      rw [heq]
      exact ih n hn x hy


/-! Dispatch lemmas: the unary and binary scans reach the position the
tags select, and fall through to the last alternative on an invalid tag. -/

lemma dispatch_drop_at {R : Type} (v : variant gamma Den)
    (f : (c : Code) → Den c → VRes R)
    (i : Nat) (hi : i < gamma.length) (htag : v.type_index = gamma.length - 1 - i) :
    dispatch v f (gamma.drop i) = (v.get gamma[i]).bind (f gamma[i]) := by
  rw [List.drop_eq_getElem_cons hi]
  simp only [dispatch]
  rw [if_pos (Or.inr (by rw [List.length_drop]; omega))]

lemma dispatch_reach {R : Type} (v : variant gamma Den)
    (f : (c : Code) → Den c → VRes R)
    (i : Nat) (hi : i < gamma.length) (htag : v.type_index = gamma.length - 1 - i) :
    ∀ (n k : Nat), k + n = i →
      dispatch v f (gamma.drop k) = (v.get gamma[i]).bind (f gamma[i]) := by
  intro n
  induction n with
  | zero =>
    intro k hk
    have hki : k = i := by omega
    subst hki
    exact dispatch_drop_at v f k hi htag
  | succ m ih =>
    intro k hk
    have hkN : k < gamma.length := by omega
    rw [List.drop_eq_getElem_cons hkN]
    simp only [dispatch]
    rw [if_neg]
    · exact ih (k + 1) (by omega)
    · push_neg
      exact ⟨List.length_pos.mp (by rw [List.length_drop]; omega),
             by rw [List.length_drop]; omega⟩

/-- Unary visitation of a variant holding position i applies the visitor
once, to the unwrapped value of alternative i. -/
lemma visit_mk_at {R : Type} (hnd : gamma.Nodup) (i : Nat) (hi : i < gamma.length)
    (x : Den gamma[i]) (f : (c : Code) → Den c → VRes R) :
    visit (mk_at gamma Den i hi x) f = f gamma[i] x := by
  unfold visit
  have h0 := dispatch_reach (mk_at gamma Den i hi x) f i hi rfl i 0 (by omega)
  rw [List.drop_zero] at h0
  rw [h0, get_mk_at hnd i hi x]
  rfl

lemma dispatch_ge {R : Type} (v : variant gamma Den)
    (f : (c : Code) → Den c → VRes R)
    (htag : gamma.length ≤ v.type_index) (hne : 0 < gamma.length) :
    ∀ (n k : Nat), k + n = gamma.length - 1 →
      dispatch v f (gamma.drop k) =
        (v.get (gamma[gamma.length - 1])).bind (f (gamma[gamma.length - 1])) := by
  intro n
  induction n with
  | zero =>
    intro k hk
    have hki : k = gamma.length - 1 := by omega
    subst hki
    rw [List.drop_eq_getElem_cons (by omega)]
    simp only [dispatch]
    rw [if_pos (Or.inl (by
      have h1 : gamma.length - 1 + 1 = gamma.length := by omega
      rw [h1, List.drop_length]))]
  | succ m ih =>
    intro k hk
    have hkN : k < gamma.length := by omega
    rw [List.drop_eq_getElem_cons hkN]
    simp only [dispatch]
    rw [if_neg]
    · exact ih (k + 1) (by omega)
    · push_neg
      exact ⟨List.length_pos.mp (by rw [List.length_drop]; omega),
             by rw [List.length_drop]; omega⟩

/-- Unary visitation of an INVALID-tag variant falls through to the base
specialization at the last alternative, whose get throws. -/
lemma visit_no_init {R : Type} (hnd : gamma.Nodup) (h0 : 0 < gamma.length)
    (hN : gamma.length ≤ invalid_value) (f : (c : Code) → Den c → VRes R) :
    visit ((variant_no_init : variant gamma Den)) f =
      .err "in get<T>()" := by
  unfold visit
  have htag : gamma.length ≤ ((variant_no_init : variant gamma Den)).type_index := by
    simpa [variant_no_init] using hN
  have h := dispatch_ge ((variant_no_init : variant gamma Den)) f htag h0
    (gamma.length - 1) 0 (by omega)
  rw [List.drop_zero] at h
  rw [h]
  have hd := direct_type_getElem hnd (gamma.length - 1) (by omega)
  have hz : gamma.length - 1 - (gamma.length - 1) = 0 := by omega
  rw [hz] at hd
  have hinv : invalid_value ≠ 0 := by decide
  unfold variant_no_init variant.get
  dsimp only
  rw [hd, if_neg hinv]
  rfl

lemma binary_rhs_reach {R : Type} (v0 v1 : variant gamma Den)
    (f : (c d : Code) → Den c → Den d → VRes R) (T0 : Code)
    (j : Nat) (hj : j < gamma.length) (htag : v1.type_index = gamma.length - 1 - j) :
    ∀ (n k : Nat), k + n = j →
      binary_dispatcher_rhs v0 v1 f T0 (gamma.drop k) =
        (v0.get T0).bind fun a => (v1.get gamma[j]).bind fun b => f T0 gamma[j] a b := by
  intro n
  induction n with
  | zero =>
    intro k hk
    have hkj : k = j := by omega
    subst hkj
    rw [List.drop_eq_getElem_cons hj]
    simp only [binary_dispatcher_rhs]
    rw [if_pos (Or.inr (by rw [List.length_drop]; omega))]
  | succ m ih =>
    intro k hk
    have hkN : k < gamma.length := by omega
    rw [List.drop_eq_getElem_cons hkN]
    simp only [binary_dispatcher_rhs]
    rw [if_neg]
    · exact ih (k + 1) (by omega)
    · push_neg
      exact ⟨List.length_pos.mp (by rw [List.length_drop]; omega),
             by rw [List.length_drop]; omega⟩

lemma binary_lhs_reach {R : Type} (v0 v1 : variant gamma Den)
    (f : (c d : Code) → Den c → Den d → VRes R) (T0 : Code)
    (i : Nat) (hi : i < gamma.length) (htag : v0.type_index = gamma.length - 1 - i) :
    ∀ (n k : Nat), k + n = i →
      binary_dispatcher_lhs v0 v1 f T0 (gamma.drop k) =
        (v0.get gamma[i]).bind fun a => (v1.get T0).bind fun b => f gamma[i] T0 a b := by
  intro n
  induction n with
  | zero =>
    intro k hk
    have hki : k = i := by omega
    subst hki
    rw [List.drop_eq_getElem_cons hi]
    simp only [binary_dispatcher_lhs]
    rw [if_pos (Or.inr (by rw [List.length_drop]; omega))]
  | succ m ih =>
    intro k hk
    have hkN : k < gamma.length := by omega
    rw [List.drop_eq_getElem_cons hkN]
    simp only [binary_dispatcher_lhs]
    rw [if_neg]
    · exact ih (k + 1) (by omega)
    · push_neg
      exact ⟨List.length_pos.mp (by rw [List.length_drop]; omega),
             by rw [List.length_drop]; omega⟩

lemma binary_reach {R : Type} (v0 v1 : variant gamma Den)
    (f : (c d : Code) → Den c → Den d → VRes R)
    (i j : Nat) (hi : i < gamma.length) (hj : j < gamma.length)
    (h0 : v0.type_index = gamma.length - 1 - i)
    (h1 : v1.type_index = gamma.length - 1 - j) :
    ∀ (n k : Nat), k + n = min i j →
      binary_dispatcher v0 v1 f (gamma.drop k) =
        (v0.get gamma[i]).bind fun a =>
          (v1.get gamma[j]).bind fun b => f gamma[i] gamma[j] a b := by
  intro n
  induction n with
  | zero =>
    intro k hk
    rcases Nat.lt_trichotomy i j with hij | hij | hij
    · -- i < j: v0 matches first, tags differ, scan v1 via the rhs helper
      have hki : k = i := by omega
      subst hki
      rw [List.drop_eq_getElem_cons hi]
      simp only [binary_dispatcher]
      rw [if_neg (List.length_pos.mp (by rw [List.length_drop]; omega))]
      rw [if_pos (by rw [List.length_drop]; omega)]
      rw [if_neg (by omega)]
      exact binary_rhs_reach v0 v1 f gamma[k] j hj h1 (j - (k + 1)) (k + 1) (by omega)
    · -- i = j: both tags match at the same position
      subst hij
      have hki : k = i := by omega
      subst hki
      rw [List.drop_eq_getElem_cons hi]
      simp only [binary_dispatcher]
      by_cases hrest : gamma.drop (k + 1) = []
      · rw [if_pos hrest]
      · rw [if_neg hrest]
        rw [if_pos (by rw [List.length_drop]; omega)]
        rw [if_pos (by omega)]
    · -- j < i: v1 matches first, scan v0 via the lhs helper
      have hkj : k = j := by omega
      subst hkj
      rw [List.drop_eq_getElem_cons hj]
      simp only [binary_dispatcher]
      rw [if_neg (List.length_pos.mp (by rw [List.length_drop]; omega))]
      rw [if_neg (by rw [List.length_drop]; omega)]
      rw [if_pos (by rw [List.length_drop]; omega)]
      exact binary_lhs_reach v0 v1 f gamma[k] i hi h0 (i - (k + 1)) (k + 1) (by omega)
  | succ m ih =>
    intro k hk
    have hkN : k < gamma.length := by omega
    rw [List.drop_eq_getElem_cons hkN]
    simp only [binary_dispatcher]
    rw [if_neg (List.length_pos.mp (by rw [List.length_drop]; omega))]
    rw [if_neg (by rw [List.length_drop]; omega)]
    rw [if_neg (by rw [List.length_drop]; omega)]
    exact ih (k + 1) (by omega)

/-- Binary visitation of two variants holding positions i and j applies
the visitor once, each operand unwrapped at its own alternative. -/
lemma binary_visit_mk_at {R : Type} (hnd : gamma.Nodup)
    (i j : Nat) (hi : i < gamma.length) (hj : j < gamma.length)
    (x : Den gamma[i]) (y : Den gamma[j])
    (f : (c d : Code) → Den c → Den d → VRes R) :
    binary_visit (mk_at gamma Den i hi x) (mk_at gamma Den j hj y) f =
      f gamma[i] gamma[j] x y := by
  unfold binary_visit
  have h := binary_reach (mk_at gamma Den i hi x) (mk_at gamma Den j hj y) f
    i j hi hj rfl rfl (min i j) 0 (by omega)
  rw [List.drop_zero] at h
  rw [h, get_mk_at hnd i hi x]
  simp only [VRes.bind]
  rw [get_mk_at hnd j hj y]

/-- C1 (amended): operator< compares the RAW tags first, and the raw tag of
the alternative declared at position i is gamma.length - 1 - i — the REVERSE
of declared order. Hence for declared positions i ≠ j, a value of
alternative i compares less than a value of alternative j exactly when
j < i (the HIGHER declared index sorts first), regardless of the payloads;
only when the tags are equal is the alternative's own ordering ltDen
consulted. -/
theorem C1_tag_order (ltDen : (c : Code) → Den c → Den c → Bool)
    (hnd : gamma.Nodup)
    (i j : Nat) (hi : i < gamma.length) (hj : j < gamma.length) :
    (∀ (x : Den gamma[i]) (y : Den gamma[j]), i ≠ j →
      variant_lt ltDen (mk_at gamma Den i hi x) (mk_at gamma Den j hj y) =
        VRes.ok (decide (j < i))) ∧
    (∀ (x y : Den gamma[i]),
      variant_lt ltDen (mk_at gamma Den i hi x) (mk_at gamma Den i hi y) =
        VRes.ok (ltDen gamma[i] x y)) := by
  constructor
  · intro x y hij
    have hne : (mk_at gamma Den i hi x).get_type_index ≠
        (mk_at gamma Den j hj y).get_type_index := by
      simp only [mk_at, variant.get_type_index]
      omega
    unfold variant_lt
    rw [if_pos hne]
    have : (decide ((mk_at gamma Den i hi x).get_type_index <
        (mk_at gamma Den j hj y).get_type_index)) = decide (j < i) := by
      apply decide_eq_decide.mpr
      simp only [mk_at, variant.get_type_index]
      omega
    rw [this]
  · intro x y
    have heq : ¬ ((mk_at gamma Den i hi x).get_type_index ≠
        (mk_at gamma Den i hi y).get_type_index) := fun h => h rfl
    unfold variant_lt
    rw [if_neg heq]
    rw [visit_mk_at hnd i hi y (comparer ltDen (mk_at gamma Den i hi x))]
    unfold comparer
    rw [get_mk_at hnd i hi x]
    rfl

/-- C2: constructing a variant from a value x of the declared alternative
type gamma[i] yields a variant with is true for that type, valid true, and
get returning x. The hypothesis hgate is the enable_if gate of the
converting constructor. -/
theorem C2_construct_access (conv : Code → Code → Bool) (hnd : gamma.Nodup)
    (hN : gamma.length ≤ invalid_value)
    (i : Nat) (hi : i < gamma.length) (x : Den gamma[i])
    (hgate : is_valid_type conv gamma[i] gamma = true) :
    (variant_ctor conv gamma[i] x : variant gamma Den).is gamma[i] = true ∧
    (variant_ctor conv gamma[i] x : variant gamma Den).valid = true ∧
    (variant_ctor conv gamma[i] x : variant gamma Den).get gamma[i] = VRes.ok x := by
  rw [variant_ctor_eq_mk_at conv hnd hN i hi x]
  refine ⟨?_, ?_, get_mk_at hnd i hi x⟩
  · simp [mk_at, variant.is, direct_type_getElem hnd i hi]
  · simp only [mk_at, variant.valid, decide_eq_true_eq]
    exact Nat.ne_of_lt (tag_lt_invalid hN hi)

/-- C3: calling get at a declared alternative gamma[j] on a variant whose
active alternative is gamma[i] with i ≠ j throws bad_variant_access with
message "in get<T>()" (get is non-mutating, so the same instance still
satisfies is for gamma[i] and still holds the same stored value);
conversely, at the matching alternative, get succeeds and returns the
stored value without raising. -/
theorem C3_get_mismatch (hnd : gamma.Nodup)
    (i j : Nat) (hi : i < gamma.length) (hj : j < gamma.length) (hij : i ≠ j)
    (x : Den gamma[i]) :
    (mk_at gamma Den i hi x).get gamma[j] = VRes.err "in get<T>()" ∧
    (mk_at gamma Den i hi x).is gamma[i] = true ∧
    (mk_at gamma Den i hi x).data = StoreVal.some gamma[i] x ∧
    (mk_at gamma Den i hi x).get gamma[i] = VRes.ok x := by
  refine ⟨get_mk_at_ne hnd i j hi hj hij x, ?_, rfl, get_mk_at hnd i hi x⟩
  simp [mk_at, variant.is, direct_type_getElem hnd i hi]

/-- C5: operator== returns true exactly when the tags match and the active
values compare equal under the alternative's own equality: two variants
holding different active alternatives (distinct declared positions i ≠ j)
are never equal, whatever the payloads; with equal tags the result is the
alternative's own equality verdict. -/
theorem C5_equality (eqDen : (c : Code) → Den c → Den c → Bool)
    (hnd : gamma.Nodup)
    (i j : Nat) (hi : i < gamma.length) (hj : j < gamma.length) :
    (∀ (x : Den gamma[i]) (y : Den gamma[j]), i ≠ j →
      variant_eq eqDen (mk_at gamma Den i hi x) (mk_at gamma Den j hj y) =
        VRes.ok false) ∧
    (∀ (x y : Den gamma[i]),
      variant_eq eqDen (mk_at gamma Den i hi x) (mk_at gamma Den i hi y) =
        VRes.ok (eqDen gamma[i] x y)) := by
  constructor
  · intro x y hij
    have hne : (mk_at gamma Den i hi x).get_type_index ≠
        (mk_at gamma Den j hj y).get_type_index := by
      simp only [mk_at, variant.get_type_index]
      omega
    unfold variant_eq
    rw [if_pos hne]
  · intro x y
    have heq : ¬ ((mk_at gamma Den i hi x).get_type_index ≠
        (mk_at gamma Den i hi y).get_type_index) := fun h => h rfl
    unfold variant_eq
    rw [if_neg heq]
    rw [visit_mk_at hnd i hi y (comparer eqDen (mk_at gamma Den i hi x))]
    unfold comparer
    rw [get_mk_at hnd i hi x]
    rfl

/-- C4: copy assignment and move assignment follow the sequence destroy
current (the returned second component lists the destructor calls it
performs), tag := INVALID, reconstruct the source's active alternative,
tag := source tag. On success the final state carries the source's tag and
the reconstructed payload; if the per-alternative copy/move constructor
throws, the exception escapes with the instance in the validly empty state
(tag INVALID, no live value), which is exactly the state the sequence is
in between the destroy step and the completed reconstruction. -/
theorem C4_assign_sequence (copyCtor : (c : Code) → Den c → Option (Den c))
    (moveCtor : (c : Code) → Den c → Option (Den c × Den c))
    (v : variant gamma Den) (j : Nat) (hj : j < gamma.length) (y : Den gamma[j]) :
    (∀ y2, copyCtor gamma[j] y = some y2 →
      copy_assign copyCtor v (mk_at gamma Den j hj y) =
        (.ok { type_index := gamma.length - 1 - j, data := .some gamma[j] y2 },
         helper_destroy_calls v.type_index gamma)) ∧
    (copyCtor gamma[j] y = none →
      copy_assign copyCtor v (mk_at gamma Den j hj y) =
        (.thrown { type_index := invalid_value, data := .none },
         helper_destroy_calls v.type_index gamma)) ∧
    (∀ y2 r, moveCtor gamma[j] y = some (y2, r) →
      move_assign moveCtor v (mk_at gamma Den j hj y) =
        (.ok { type_index := gamma.length - 1 - j, data := .some gamma[j] y2 },
         helper_destroy_calls v.type_index gamma)) ∧
    (moveCtor gamma[j] y = none →
      move_assign moveCtor v (mk_at gamma Den j hj y) =
        (.thrown { type_index := invalid_value, data := .none },
         helper_destroy_calls v.type_index gamma)) ∧
    ({ type_index := invalid_value, data := .none } : variant gamma Den).valid
      = false := by
  refine ⟨?_, ?_, ?_, ?_, by simp [variant.valid]⟩
  · intro y2 hy
    unfold copy_assign mk_at
    dsimp only
    rw [helper_copy_at_some copyCtor j hj y y2 hy]
  · intro hy
    unfold copy_assign mk_at
    dsimp only
    rw [helper_copy_at_none copyCtor j hj y hy]
  · intro y2 r hy
    unfold move_assign mk_at
    dsimp only
    rw [helper_move_at_some moveCtor j hj y y2 r hy]
  · intro hy
    unfold move_assign mk_at
    dsimp only
    rw [helper_move_at_none moveCtor j hj y hy]

/-- C6: binary visitation applies the visitor exactly once, with each
operand unwrapped at its own active alternative: for operands holding
positions i and j (equal or different), the result is the single call
f gamma[i] gamma[j] x y on the two unwrapped values. -/
theorem C6_binary_dispatch {R : Type} (hnd : gamma.Nodup)
    (i j : Nat) (hi : i < gamma.length) (hj : j < gamma.length)
    (x : Den gamma[i]) (y : Den gamma[j])
    (f : (c d : Code) → Den c → Den d → VRes R) :
    binary_visit (mk_at gamma Den i hi x) (mk_at gamma Den j hj y) f =
      f gamma[i] gamma[j] x y :=
  binary_visit_mk_at hnd i j hi hj x y f

/-- C7 (amended): the raw tag accessor reports the REVERSE of the declared
position: a variant constructed from the alternative declared at position
i carries raw tag gamma.length - 1 - i, and a default-constructed variant
holds the FIRST declared alternative (is is true for it) with raw tag
gamma.length - 1 (not 0, except for a single-alternative variant). -/
theorem C7_tag_reversed (conv : Code → Code → Bool) (hnd : gamma.Nodup)
    (hN : gamma.length ≤ invalid_value)
    (i : Nat) (hi : i < gamma.length) (x : Den gamma[i]) :
    (variant_ctor conv gamma[i] x : variant gamma Den).get_type_index =
      gamma.length - 1 - i ∧
    (∀ (T : Code) (rest : List Code) (d : Den T),
      (variant_default T rest d : variant (T :: rest) Den).get_type_index =
        (T :: rest).length - 1 ∧
      (variant_default T rest d : variant (T :: rest) Den).is T = true) := by
  constructor
  · rw [variant_ctor_eq_mk_at conv hnd hN i hi x]
    rfl
  · intro T rest d
    refine ⟨rfl, ?_⟩
    simp [variant_default, variant.is, direct_type]

/-- C8 (amended): for a type T outside the declared alternative list, the
build-time gates of is (static_assert on has_type) and of get (enable_if
on the direct index) are false — those calls cannot compile — but set has
NO such gate: invoking set with an undeclared T executes, destroys the
current value, constructs T into the storage and leaves the tag INVALID. -/
theorem C8_no_gate_on_set (T : Code) (hT : T ∉ gamma) :
    has_type T gamma = false ∧
    direct_type T gamma = invalid_value ∧
    (∀ (v : variant gamma Den) (x : Den T),
      (v.set T x).1.type_index = invalid_value ∧
      (v.set T x).1.data = StoreVal.some T x ∧
      (v.set T x).2 = helper_destroy_calls v.type_index gamma) := by
  refine ⟨has_type_not_mem T hT, direct_type_not_mem T hT, ?_⟩
  intro v x
  refine ⟨?_, rfl, rfl⟩
  simp [variant.set, direct_type_not_mem T hT]

/-- C9: move construction moves the payload via the per-alternative move
operation and leaves the tag of the source unchanged (equal to its
original raw tag, with the payload in the alternative-defined moved-from
state r); destroying the moved-from source therefore still invokes exactly
that one alternative's destructor, exactly once. -/
theorem C9_move_ctor (moveCtor : (c : Code) → Den c → Option (Den c × Den c))
    (i : Nat) (hi : i < gamma.length) (x y r : Den gamma[i])
    (hmv : moveCtor gamma[i] x = some (y, r)) :
    variant_move_ctor moveCtor (mk_at gamma Den i hi x) =
      VRes.ok
        ({ type_index := gamma.length - 1 - i, data := .some gamma[i] y },
         { type_index := gamma.length - 1 - i, data := .some gamma[i] r }) ∧
    variant_dtor ({ type_index := gamma.length - 1 - i, data := .some gamma[i] r } : variant gamma Den) = [gamma[i]] := by
  constructor
  · unfold variant_move_ctor mk_at
    dsimp only
    rw [helper_move_at_some moveCtor i hi x y r hmv]
  · unfold variant_dtor
    dsimp only
    exact helper_destroy_calls_at i hi

/-- C10: comparing two explicitly empty (no-init) variants raises
bad_variant_access instead of returning a result: both tags are INVALID so
the tag test passes, visitation falls through to the base case at the last
alternative, and its get throws "in get<T>()". -/
theorem C10_empty_compare (eqDen ltDen : (c : Code) → Den c → Den c → Bool)
    (hnd : gamma.Nodup) (h0 : 0 < gamma.length)
    (hN : gamma.length ≤ invalid_value) :
    variant_eq eqDen ((variant_no_init : variant gamma Den))
      variant_no_init = VRes.err "in get<T>()" ∧
    variant_lt ltDen ((variant_no_init : variant gamma Den))
      variant_no_init = VRes.err "in get<T>()" := by
  constructor
  · unfold variant_eq
    rw [if_neg (fun h => h rfl)]
    exact visit_no_init hnd h0 hN _
  · unfold variant_lt
    rw [if_neg (fun h => h rfl)]
    exact visit_no_init hnd h0 hN _

end Proofs

/-- C1 counterexample: over the two-alternative list [0, 1] (position 0
playing Int, position 1 playing String), the variant holding alternative 0
with payload 1000000 is NOT less than the variant holding alternative 1
with payload 0 — operator< returns false, and the converse comparison
returns true — refuting the claim that the lower declared index sorts
first. -/
theorem C1_counterexample :
    variant_lt ltNat (mk_at [0, 1] DenNat 0 (by decide) 1000000)
      (mk_at [0, 1] DenNat 1 (by decide) 0) = VRes.ok false ∧
    variant_lt ltNat (mk_at [0, 1] DenNat 1 (by decide) 0)
      (mk_at [0, 1] DenNat 0 (by decide) 1000000) = VRes.ok true :=
  ⟨rfl, rfl⟩

/-- Witness for C1 (amended) at the list [0, 1], positions 0 and 1, payloads
5 and 7: with different tags the verdict is decide (1 < 0) = false, with
equal tags it is the per-alternative ordering. -/
theorem C1_tag_order_witness :
    ([0, 1] : List Nat).Nodup ∧ (0 : Nat) ≠ 1 ∧
    variant_lt ltNat (mk_at [0, 1] DenNat 0 (by decide) 5)
      (mk_at [0, 1] DenNat 1 (by decide) 7) = VRes.ok (decide ((1 : Nat) < 0)) ∧
    variant_lt ltNat (mk_at [0, 1] DenNat 0 (by decide) 5)
      (mk_at [0, 1] DenNat 0 (by decide) 7) = VRes.ok (ltNat 0 5 7) :=
  ⟨by decide, by decide,
   (@C1_tag_order Nat _ DenNat [0, 1] ltNat (by decide) 0 1 (by decide)
     (by decide)).1 5 7 (by decide),
   (@C1_tag_order Nat _ DenNat [0, 1] ltNat (by decide) 0 1 (by decide)
     (by decide)).2 5 7⟩

/-- Witness for C2 at the list [0, 1], alternative 0, value 5. -/
theorem C2_construct_access_witness :
    ([0, 1] : List Nat).Nodup ∧ ([0, 1] : List Nat).length ≤ invalid_value ∧
    is_valid_type convEq 0 [0, 1] = true ∧
    (variant_ctor convEq 0 5 : variant [0, 1] DenNat).is 0 = true ∧
    (variant_ctor convEq 0 5 : variant [0, 1] DenNat).valid = true ∧
    (variant_ctor convEq 0 5 : variant [0, 1] DenNat).get 0 = VRes.ok 5 :=
  ⟨by decide, by decide, by decide,
   (@C2_construct_access Nat _ DenNat [0, 1] convEq (by decide) (by decide) 0
     (by decide) 5 (by decide)).1,
   (@C2_construct_access Nat _ DenNat [0, 1] convEq (by decide) (by decide) 0
     (by decide) 5 (by decide)).2.1,
   (@C2_construct_access Nat _ DenNat [0, 1] convEq (by decide) (by decide) 0
     (by decide) 5 (by decide)).2.2⟩

/-- Witness for C3 at the list [0, 1]: a variant holding alternative 0 with
payload 7, accessed at alternative 1, throws with the message, and is still
intact. -/
theorem C3_get_mismatch_witness :
    ([0, 1] : List Nat).Nodup ∧ (0 : Nat) ≠ 1 ∧
    (mk_at [0, 1] DenNat 0 (by decide) 7).get 1 = VRes.err "in get<T>()" ∧
    (mk_at [0, 1] DenNat 0 (by decide) 7).is 0 = true ∧
    (mk_at [0, 1] DenNat 0 (by decide) 7).data = StoreVal.some 0 7 ∧
    (mk_at [0, 1] DenNat 0 (by decide) 7).get 0 = VRes.ok 7 :=
  ⟨by decide, by decide,
   (@C3_get_mismatch Nat _ DenNat [0, 1] (by decide) 0 1 (by decide) (by decide)
     (by decide) 7).1,
   (@C3_get_mismatch Nat _ DenNat [0, 1] (by decide) 0 1 (by decide) (by decide)
     (by decide) 7).2.1,
   (@C3_get_mismatch Nat _ DenNat [0, 1] (by decide) 0 1 (by decide) (by decide)
     (by decide) 7).2.2.1,
   (@C3_get_mismatch Nat _ DenNat [0, 1] (by decide) 0 1 (by decide) (by decide)
     (by decide) 7).2.2.2⟩

/-- Witness for C4 at the list [0, 1]: assigning a variant holding
alternative 0 (payload 5) into a variant holding alternative 1 (payload 9),
with succeeding and with throwing per-alternative constructors. -/
theorem C4_assign_sequence_witness :
    copyOk 0 5 = some 5 ∧
    copy_assign copyOk (mk_at [0, 1] DenNat 1 (by decide) 9)
      (mk_at [0, 1] DenNat 0 (by decide) 5) =
      (.ok { type_index := 1, data := .some 0 5 }, [1]) ∧
    copyBad 0 5 = none ∧
    copy_assign copyBad (mk_at [0, 1] DenNat 1 (by decide) 9)
      (mk_at [0, 1] DenNat 0 (by decide) 5) =
      (.thrown { type_index := invalid_value, data := .none }, [1]) ∧
    moveOk 0 5 = some (5, 0) ∧
    move_assign moveOk (mk_at [0, 1] DenNat 1 (by decide) 9)
      (mk_at [0, 1] DenNat 0 (by decide) 5) =
      (.ok { type_index := 1, data := .some 0 5 }, [1]) ∧
    moveBad 0 5 = none ∧
    move_assign moveBad (mk_at [0, 1] DenNat 1 (by decide) 9)
      (mk_at [0, 1] DenNat 0 (by decide) 5) =
      (.thrown { type_index := invalid_value, data := .none }, [1]) ∧
    ({ type_index := invalid_value, data := .none } : variant [0, 1] DenNat).valid
      = false :=
  ⟨rfl,
   (@C4_assign_sequence Nat _ DenNat [0, 1] copyOk moveOk
     (mk_at [0, 1] DenNat 1 (by decide) 9) 0 (by decide) 5).1 5 rfl,
   rfl,
   (@C4_assign_sequence Nat _ DenNat [0, 1] copyBad moveBad
     (mk_at [0, 1] DenNat 1 (by decide) 9) 0 (by decide) 5).2.1 rfl,
   rfl,
   (@C4_assign_sequence Nat _ DenNat [0, 1] copyOk moveOk
     (mk_at [0, 1] DenNat 1 (by decide) 9) 0 (by decide) 5).2.2.1 5 0 rfl,
   rfl,
   (@C4_assign_sequence Nat _ DenNat [0, 1] copyBad moveBad
     (mk_at [0, 1] DenNat 1 (by decide) 9) 0 (by decide) 5).2.2.2.1 rfl,
   (@C4_assign_sequence Nat _ DenNat [0, 1] copyOk moveOk
     (mk_at [0, 1] DenNat 1 (by decide) 9) 0 (by decide) 5).2.2.2.2⟩

/-- Witness for C5 at the list [0, 1]: different active alternatives with
the same payload bits (both 5) are not equal; equal tags defer to the
per-alternative equality. -/
theorem C5_equality_witness :
    ([0, 1] : List Nat).Nodup ∧ (0 : Nat) ≠ 1 ∧
    variant_eq eqNat (mk_at [0, 1] DenNat 0 (by decide) 5)
      (mk_at [0, 1] DenNat 1 (by decide) 5) = VRes.ok false ∧
    variant_eq eqNat (mk_at [0, 1] DenNat 0 (by decide) 5)
      (mk_at [0, 1] DenNat 0 (by decide) 5) = VRes.ok (eqNat 0 5 5) :=
  ⟨by decide, by decide,
   (@C5_equality Nat _ DenNat [0, 1] eqNat (by decide) 0 1 (by decide)
     (by decide)).1 5 5 (by decide),
   (@C5_equality Nat _ DenNat [0, 1] eqNat (by decide) 0 1 (by decide)
     (by decide)).2 5 5⟩

/-- Witness for C6 at the list [0, 1]: the summing visitor applied to two
variants holding 3 and 4 (same alternative) yields 7; a code-sensitive
visitor applied to operands with different active alternatives receives
each operand unwrapped at its own alternative (codes 0 and 1). -/
theorem C6_binary_dispatch_witness :
    ([0, 1] : List Nat).Nodup ∧
    binary_visit (mk_at [0, 1] DenNat 0 (by decide) 3)
      (mk_at [0, 1] DenNat 0 (by decide) 4)
      (fun _ _ a b => VRes.ok (a + b)) = VRes.ok 7 ∧
    binary_visit (mk_at [0, 1] DenNat 0 (by decide) 3)
      (mk_at [0, 1] DenNat 1 (by decide) 4)
      (fun c d a b => VRes.ok (100 * c + 10 * d + a + b)) = VRes.ok 17 :=
  ⟨by decide,
   @C6_binary_dispatch Nat _ DenNat [0, 1] Nat (by decide) 0 0 (by decide)
     (by decide) 3 4 (fun _ _ a b => VRes.ok (a + b)),
   @C6_binary_dispatch Nat _ DenNat [0, 1] Nat (by decide) 0 1 (by decide)
     (by decide) 3 4 (fun c d a b => VRes.ok (100 * c + 10 * d + a + b))⟩

/-- C7 counterexample: over the list [0, 1], the default-constructed
variant holds the first alternative but its raw tag accessor reports 1,
not 0; and the variant constructed from the alternative declared at
position 1 reports raw tag 0, not 1 — the raw tag is not the declared
position. -/
theorem C7_counterexample :
    (variant_default 0 [1] 0 : variant [0, 1] DenNat).get_type_index = 1 ∧
    (variant_default 0 [1] 0 : variant [0, 1] DenNat).get_type_index ≠ 0 ∧
    (variant_ctor convEq 1 5 : variant [0, 1] DenNat).get_type_index = 0 ∧
    (variant_ctor convEq 1 5 : variant [0, 1] DenNat).get_type_index ≠ 1 :=
  ⟨rfl, by decide, rfl, by decide⟩

/-- Witness for C7 (amended) at the list [0, 1], alternative 0, value 5:
raw tags are length - 1 - position; the default-constructed variant holds
the first alternative with raw tag 1. -/
theorem C7_tag_reversed_witness :
    ([0, 1] : List Nat).Nodup ∧ ([0, 1] : List Nat).length ≤ invalid_value ∧
    (variant_ctor convEq 0 5 : variant [0, 1] DenNat).get_type_index = 1 ∧
    (variant_default 0 [1] 7 : variant [0, 1] DenNat).get_type_index = 1 ∧
    (variant_default 0 [1] 7 : variant [0, 1] DenNat).is 0 = true :=
  ⟨by decide, by decide,
   (@C7_tag_reversed Nat _ DenNat [0, 1] convEq (by decide) (by decide) 0
     (by decide) 5).1,
   ((@C7_tag_reversed Nat _ DenNat [0, 1] convEq (by decide) (by decide) 0
     (by decide) 5).2 0 [1] 7).1,
   ((@C7_tag_reversed Nat _ DenNat [0, 1] convEq (by decide) (by decide) 0
     (by decide) 5).2 0 [1] 7).2⟩

/-- C8 counterexample: over the list [0, 1], calling set with the
undeclared type 5 on a variant holding alternative 0 is not rejected and
has a runtime effect: it destroys the current value (destructor call on
code 0), constructs a value of code 5 into the storage, and leaves the tag
INVALID — refuting "rejected at definition time and never produces a
runtime effect" for set. -/
theorem C8_counterexample :
    ((mk_at [0, 1] DenNat 0 (by decide) 7).set 5 42).1.type_index =
      invalid_value ∧
    ((mk_at [0, 1] DenNat 0 (by decide) 7).set 5 42).1.data =
      StoreVal.some 5 42 ∧
    ((mk_at [0, 1] DenNat 0 (by decide) 7).set 5 42).2 = [0] ∧
    ((mk_at [0, 1] DenNat 0 (by decide) 7).set 5 42).1.valid = false :=
  ⟨rfl, rfl, rfl, rfl⟩

/-- Witness for C8 (amended) at the list [0, 1] and the undeclared type 5. -/
theorem C8_no_gate_on_set_witness :
    (5 : Nat) ∉ ([0, 1] : List Nat) ∧
    has_type 5 [0, 1] = false ∧
    direct_type 5 [0, 1] = invalid_value ∧
    ((mk_at [0, 1] DenNat 0 (by decide) 7).set 5 42).1.type_index =
      invalid_value ∧
    ((mk_at [0, 1] DenNat 0 (by decide) 7).set 5 42).1.data =
      StoreVal.some 5 42 ∧
    ((mk_at [0, 1] DenNat 0 (by decide) 7).set 5 42).2 =
      helper_destroy_calls (mk_at [0, 1] DenNat 0 (by decide) 7).type_index
        [0, 1] :=
  ⟨by decide,
   (@C8_no_gate_on_set Nat _ DenNat [0, 1] 5 (by decide)).1,
   (@C8_no_gate_on_set Nat _ DenNat [0, 1] 5 (by decide)).2.1,
   ((@C8_no_gate_on_set Nat _ DenNat [0, 1] 5 (by decide)).2.2
     (mk_at [0, 1] DenNat 0 (by decide) 7) 42).1,
   ((@C8_no_gate_on_set Nat _ DenNat [0, 1] 5 (by decide)).2.2
     (mk_at [0, 1] DenNat 0 (by decide) 7) 42).2.1,
   ((@C8_no_gate_on_set Nat _ DenNat [0, 1] 5 (by decide)).2.2
     (mk_at [0, 1] DenNat 0 (by decide) 7) 42).2.2⟩

/-- Witness for C9 at the list [0, 1]: moving from a variant holding
alternative 0 (payload 5, moved-from residue 0) keeps the source tag and
destroying the moved-from source calls the destructor of code 0 exactly
once. -/
theorem C9_move_ctor_witness :
    moveOk 0 5 = some (5, 0) ∧
    variant_move_ctor moveOk (mk_at [0, 1] DenNat 0 (by decide) 5) =
      VRes.ok ({ type_index := 1, data := .some 0 5 },
               { type_index := 1, data := .some 0 0 }) ∧
    variant_dtor ({ type_index := 1, data := .some 0 0 } : variant [0, 1] DenNat) = [0] :=
  ⟨rfl,
   (@C9_move_ctor Nat _ DenNat [0, 1] moveOk 0 (by decide) 5 5 0 rfl).1,
   (@C9_move_ctor Nat _ DenNat [0, 1] moveOk 0 (by decide) 5 5 0 rfl).2⟩

/-- Witness for C10 at the list [0, 1]: comparing two no-init variants
raises bad_variant_access("in get<T>()") for both == and <. -/
theorem C10_empty_compare_witness :
    ([0, 1] : List Nat).Nodup ∧ 0 < ([0, 1] : List Nat).length ∧
    ([0, 1] : List Nat).length ≤ invalid_value ∧
    variant_eq eqNat (variant_no_init : variant [0, 1] DenNat) variant_no_init =
      VRes.err "in get<T>()" ∧
    variant_lt ltNat (variant_no_init : variant [0, 1] DenNat) variant_no_init =
      VRes.err "in get<T>()" :=
  ⟨by decide, by decide, by decide,
   (@C10_empty_compare Nat _ DenNat [0, 1] eqNat ltNat (by decide) (by decide)
     (by decide)).1,
   (@C10_empty_compare Nat _ DenNat [0, 1] eqNat ltNat (by decide) (by decide)
     (by decide)).2⟩

end MapboxUtil
